import Mathlib

/-!
Verification of the recruiting-database utility (`src/main.go`).

The program is a thin synchronous wrapper around a PostgreSQL database:
user registration/login (bcrypt-hashed passwords), companies, candidates
and job openings, with skill lists stored as JSON arrays in `jsonb`
columns and searched with the containment operator `@>`.

The embedding below models the database as an explicit state value and
each repository function of `main.go` as a pure state transition.  The
external collaborators (the PostgreSQL engine, the bcrypt library, Go's
`encoding/json` and `strings` packages) are modelled from the behaviour
documented in the specification; every function of `main.go` itself is
translated line by line from the source.
-/

namespace Kursovaya

/-! ## JSON text layer

`addCandidate`/`addJobOpening` serialise a `[]string` with Go's
`json.Marshal` and send the bytes as a parameter for a `jsonb` column;
the store parses that text.  `findCandidatesBySkill` /
`findJobOpeningsBySkill` build the query argument `["` + skill + `"]`
by plain string concatenation (main.go lines 220 and 272) and the store
parses it via the `$1::jsonb` cast.  We therefore model both the Go
encoder and the store's JSON parse of an array of strings. -/

/-- Hexadecimal digit character (lower case), as emitted by Go's
`encoding/json` in `\u00xx` escapes. -/
def hexLowerDigit (n : Nat) : Char :=
  Char.ofNat (if n < 10 then 48 + n else 87 + n)

/-- Value of a hexadecimal digit character, `none` for a non-digit. -/
def hexVal (c : Char) : Option Nat :=
  let n := c.toNat
  if 48 ≤ n ∧ n ≤ 57 then some (n - 48)
  else if 97 ≤ n ∧ n ≤ 102 then some (n - 87)
  else if 65 ≤ n ∧ n ≤ 70 then some (n - 55)
  else none

/-- Single-character JSON escapes (the character after a backslash). -/
def decodeEscape : Char → Option Char
  | '"' => some '"'
  | '\\' => some '\\'
  | '/' => some '/'
  | 'b' => some (Char.ofNat 8)
  | 'f' => some (Char.ofNat 12)
  | 'n' => some '\n'
  | 'r' => some (Char.ofNat 13)
  | 't' => some '\t'
  | _ => none

/-- JSON insignificant whitespace. -/
def isJsonWs (c : Char) : Bool :=
  c == ' ' || c == '\t' || c == '\n' || c == '\r'

/-- State of the character-level parser for a JSON array of strings.
`acc` collects completed elements in reverse order, `cur` the characters
of the string literal being read in reverse order. -/
inductive PState where
  | top
  | atStart
  | preStr (acc : List String)
  | inStr (cur : List Char) (acc : List String)
  | inEsc (cur : List Char) (acc : List String)
  | inHex (v k : Nat) (cur : List Char) (acc : List String)
  | postElem (acc : List String)
  | done (acc : List String)

/-- Modelled from the spec (§6: the store parses JSON text for `jsonb`
columns and the `$1::jsonb` cast): parser for a JSON document that is an
array of strings, one character at a time.  Any other JSON shape, and
any malformed text, yields `none` (the store rejects malformed text with
an error; this model also maps non-string-array documents to `none`,
which is sound for every query this program performs because its
fragments always start with `["`). -/
def jsonStepRun : PState → List Char → Option (List String)
  | .done acc, [] => some acc.reverse
  | _, [] => none
  | st, c :: r =>
    match st with
    | .top =>
        if isJsonWs c then jsonStepRun .top r
        else if c == '[' then jsonStepRun .atStart r
        else none
    | .atStart =>
        if isJsonWs c then jsonStepRun .atStart r
        else if c == ']' then jsonStepRun (.done []) r
        else if c == '"' then jsonStepRun (.inStr [] []) r
        else none
    | .preStr acc =>
        if isJsonWs c then jsonStepRun (.preStr acc) r
        else if c == '"' then jsonStepRun (.inStr [] acc) r
        else none
    | .inStr cur acc =>
        if c == '"' then jsonStepRun (.postElem (String.mk cur.reverse :: acc)) r
        else if c == '\\' then jsonStepRun (.inEsc cur acc) r
        else if c.toNat < 32 then none
        else jsonStepRun (.inStr (c :: cur) acc) r
    | .inEsc cur acc =>
        if c == 'u' then jsonStepRun (.inHex 0 0 cur acc) r
        else
          match decodeEscape c with
          | some d => jsonStepRun (.inStr (d :: cur) acc) r
          | none => none
    | .inHex v k cur acc =>
        match hexVal c with
        | none => none
        | some d =>
          if k == 3 then
            if _h : (v * 16 + d).isValidChar then
              jsonStepRun (.inStr (Char.ofNat (v * 16 + d) :: cur) acc) r
            else none
          else jsonStepRun (.inHex (v * 16 + d) (k + 1) cur acc) r
    | .postElem acc =>
        if isJsonWs c then jsonStepRun (.postElem acc) r
        else if c == ',' then jsonStepRun (.preStr acc) r
        else if c == ']' then jsonStepRun (.done acc) r
        else none
    | .done acc =>
        if isJsonWs c then jsonStepRun (.done acc) r else none

/-- The store's parse of a JSON array-of-strings document. -/
def parseStringArray (s : String) : Option (List String) :=
  jsonStepRun .top s.data

/-- Modelled from the spec (§4.3/§6, external `encoding/json`): Go's
escaping of one character inside a JSON string literal — `"`, `\`,
`\n`, `\r`, `\t` get two-character escapes, other control characters and
(HTML-escaping, on by default) `<`, `>`, `&` become `\u00xx`, and
U+2028/U+2029 become six-character `\u202x` escapes; everything else is emitted
verbatim. -/
def escapeCharGo (c : Char) : List Char :=
  if c == '"' then ['\\', '"']
  else if c == '\\' then ['\\', '\\']
  else if c == '\n' then ['\\', 'n']
  else if c == '\r' then ['\\', 'r']
  else if c == '\t' then ['\\', 't']
  else if c.toNat < 32 then
    ['\\', 'u', '0', '0', hexLowerDigit (c.toNat / 16), hexLowerDigit (c.toNat % 16)]
  else if c == '<' || c == '>' || c == '&' then
    ['\\', 'u', '0', '0', hexLowerDigit (c.toNat / 16), hexLowerDigit (c.toNat % 16)]
  else if c.toNat == 0x2028 || c.toNat == 0x2029 then
    ['\\', 'u', '2', '0', '2', hexLowerDigit (c.toNat % 16)]
  else [c]

/-- Go's JSON encoding of one string (a quoted literal). -/
def encodeStringGo (s : String) : List Char :=
  ('"' :: s.data.flatMap escapeCharGo) ++ ['"']

/-- Comma-prefixed encodings of the remaining array elements. -/
def encodeElemsTail : List String → List Char
  | [] => []
  | s :: rest => (',' :: encodeStringGo s) ++ encodeElemsTail rest

/-- Modelled from the spec (external `encoding/json`): `json.Marshal`
of a `[]string` value. -/
def goMarshalStrings : List String → String
  | [] => "[]"
  | s :: rest => String.mk (('[' :: encodeStringGo s) ++ (encodeElemsTail rest ++ [']']))

/-- A character that may sit verbatim inside a JSON string literal:
not a quote, not a backslash, not a control character. -/
def jsonSafeChar (c : Char) : Bool :=
  !(c == '"') && !(c == '\\') && !(c.toNat < 32)

/-- A skill string that survives being concatenated into the query
fragment unchanged. -/
def jsonSafe (s : String) : Bool :=
  s.data.all jsonSafeChar

/-! ## Parser/encoder roundtrip -/

theorem hexVal_hexLowerDigit {n : Nat} (h : n < 16) : hexVal (hexLowerDigit n) = some n := by
  interval_cases n <;> decide

theorem isValidChar_of_lt {n : Nat} (h : n < 0xd800) : n.isValidChar := Or.inl h

theorem step_inStr_quote (cur : List Char) (acc : List String) (r : List Char) :
    jsonStepRun (.inStr cur acc) ('"' :: r) =
      jsonStepRun (.postElem (String.mk cur.reverse :: acc)) r := rfl

theorem step_inStr_backslash (cur : List Char) (acc : List String) (r : List Char) :
    jsonStepRun (.inStr cur acc) ('\\' :: r) = jsonStepRun (.inEsc cur acc) r := rfl

theorem step_inStr_safe {c : Char} (h : jsonSafeChar c = true)
    (cur : List Char) (acc : List String) (r : List Char) :
    jsonStepRun (.inStr cur acc) (c :: r) = jsonStepRun (.inStr (c :: cur) acc) r := by
  have h1 : (c == '"') = false := by
    cases hq : (c == '"') with
    | false => rfl
    | true => simp [jsonSafeChar, hq] at h
  have h2 : (c == '\\') = false := by
    cases hq : (c == '\\') with
    | false => rfl
    | true => simp [jsonSafeChar, hq] at h
  have h3 : ¬ (c.toNat < 32) := by
    by_contra hc
    simp [jsonSafeChar, hc] at h
  simp [jsonStepRun, h1, h2, h3]

/-- Running the parser through a four-digit `\uXXXX` escape appends the
denoted character. -/
theorem run_u_escape (a b g e : Char) (va vb vg ve n : Nat)
    (ha : hexVal a = some va) (hb : hexVal b = some vb)
    (hg : hexVal g = some vg) (he : hexVal e = some ve)
    (hn : ((va * 16 + vb) * 16 + vg) * 16 + ve = n)
    (hval : n.isValidChar)
    (cur : List Char) (acc : List String) (r : List Char) :
    jsonStepRun (.inEsc cur acc) ('u' :: a :: b :: g :: e :: r) =
      jsonStepRun (.inStr (Char.ofNat n :: cur) acc) r := by
  simp [jsonStepRun, ha, hb, hg, he, hn, hval]

/-- One Go-escaped character parses back to itself. -/
theorem escape_step (c : Char) (cur : List Char) (acc : List String) (r : List Char) :
    jsonStepRun (.inStr cur acc) (escapeCharGo c ++ r) =
      jsonStepRun (.inStr (c :: cur) acc) r := by
  unfold escapeCharGo
  split_ifs with h1 h2 h3 h4 h5 h6 h7 h8
  · rw [beq_iff_eq] at h1; subst h1; rfl
  · rw [beq_iff_eq] at h2; subst h2; rfl
  · rw [beq_iff_eq] at h3; subst h3; rfl
  · rw [beq_iff_eq] at h4; subst h4; rfl
  · rw [beq_iff_eq] at h5; subst h5; rfl
  · -- other control characters: \u00xx
    have hhi : c.toNat / 16 < 16 := by omega
    have hlo : c.toNat % 16 < 16 := Nat.mod_lt _ (by omega)
    simp only [List.cons_append, List.nil_append]
    rw [step_inStr_backslash,
      run_u_escape '0' '0' (hexLowerDigit (c.toNat / 16)) (hexLowerDigit (c.toNat % 16))
        0 0 (c.toNat / 16) (c.toNat % 16) c.toNat
        (by decide) (by decide) (hexVal_hexLowerDigit hhi) (hexVal_hexLowerDigit hlo)
        (by omega) (isValidChar_of_lt (by omega)),
      Char.ofNat_toNat]
  · -- HTML-escaped characters <, >, &
    have hv7 : (c = '<' ∨ c = '>') ∨ c = '&' := by simpa using h7
    rcases hv7 with (h | h) | h <;> subst h <;> rfl
  · -- U+2028 / U+2029
    have hv : c.toNat = 0x2028 ∨ c.toNat = 0x2029 := by simpa using h8
    have hlo : c.toNat % 16 < 16 := Nat.mod_lt _ (by omega)
    simp only [List.cons_append, List.nil_append]
    rw [step_inStr_backslash,
      run_u_escape '2' '0' '2' (hexLowerDigit (c.toNat % 16))
        2 0 2 (c.toNat % 16) c.toNat
        (by decide) (by decide) (by decide) (hexVal_hexLowerDigit hlo)
        (by rcases hv with h | h <;> omega)
        (isValidChar_of_lt (by rcases hv with h | h <;> omega)),
      Char.ofNat_toNat]
  · -- verbatim character
    have e1 : (c == '"') = false := by
      cases hq : (c == '"') with
      | false => rfl
      | true => exact absurd hq h1
    have e2 : (c == '\\') = false := by
      cases hq : (c == '\\') with
      | false => rfl
      | true => exact absurd hq h2
    have hsafe : jsonSafeChar c = true := by simp [jsonSafeChar, e1, e2, h6]
    rw [List.singleton_append, step_inStr_safe hsafe]

theorem string_mk_data (s : String) : String.mk s.data = s := rfl

theorem step_top_lbracket (r : List Char) :
    jsonStepRun .top ('[' :: r) = jsonStepRun .atStart r := rfl

theorem step_atStart_quote (r : List Char) :
    jsonStepRun .atStart ('"' :: r) = jsonStepRun (.inStr [] []) r := rfl

theorem step_preStr_quote (acc : List String) (r : List Char) :
    jsonStepRun (.preStr acc) ('"' :: r) = jsonStepRun (.inStr [] acc) r := rfl

theorem step_postElem_comma (acc : List String) (r : List Char) :
    jsonStepRun (.postElem acc) (',' :: r) = jsonStepRun (.preStr acc) r := rfl

theorem step_postElem_rbracket (acc : List String) (r : List Char) :
    jsonStepRun (.postElem acc) (']' :: r) = jsonStepRun (.done acc) r := rfl

/-- The Go-escaped body of a string parses back to the original characters. -/
theorem content_step (cs cur : List Char) (acc : List String) (r : List Char) :
    jsonStepRun (.inStr cur acc) (cs.flatMap escapeCharGo ++ r) =
      jsonStepRun (.inStr (cs.reverse ++ cur) acc) r := by
  induction cs generalizing cur with
  | nil => simp
  | cons c cs ih =>
    rw [List.flatMap_cons, List.append_assoc, escape_step, ih]
    simp [List.append_assoc]

theorem encoded_string_step (s : String) (acc : List String) (r : List Char) :
    jsonStepRun (.inStr [] acc) (s.data.flatMap escapeCharGo ++ ('"' :: r)) =
      jsonStepRun (.postElem (s :: acc)) r := by
  rw [content_step, step_inStr_quote]
  simp [string_mk_data]

theorem elem_encode_step (s : String) (acc : List String) (r : List Char) :
    jsonStepRun (.preStr acc) (encodeStringGo s ++ r) =
      jsonStepRun (.postElem (s :: acc)) r := by
  have hsh : encodeStringGo s ++ r
      = '"' :: (s.data.flatMap escapeCharGo ++ ('"' :: r)) := by
    simp [encodeStringGo]
  rw [hsh, step_preStr_quote, encoded_string_step]

/-- Consuming the comma-prefixed remaining elements. -/
theorem tail_loop (rest acc : List String) (r : List Char) :
    jsonStepRun (.postElem acc) (encodeElemsTail rest ++ r) =
      jsonStepRun (.postElem (rest.reverse ++ acc)) r := by
  induction rest generalizing acc with
  | nil => simp [encodeElemsTail]
  | cons s rest ih =>
    rw [encodeElemsTail]
    simp only [List.cons_append, List.append_assoc]
    rw [step_postElem_comma, elem_encode_step, ih]
    simp

/-- Roundtrip: the store's JSON parse of Go's `json.Marshal` output
recovers the original list of strings. -/
theorem parse_goMarshal (l : List String) :
    parseStringArray (goMarshalStrings l) = some l := by
  cases l with
  | nil => rfl
  | cons s rest =>
    have hd : (goMarshalStrings (s :: rest)).data
        = '[' :: '"' :: (s.data.flatMap escapeCharGo
            ++ ('"' :: (encodeElemsTail rest ++ [']']))) := by
      simp [goMarshalStrings, encodeStringGo]
    rw [parseStringArray, hd, step_top_lbracket, step_atStart_quote, encoded_string_step,
      tail_loop, step_postElem_rbracket]
    simp [jsonStepRun]

/-- Safe characters parse back verbatim. -/
theorem content_step_safe (cs : List Char) (h : ∀ c ∈ cs, jsonSafeChar c = true)
    (cur : List Char) (acc : List String) (r : List Char) :
    jsonStepRun (.inStr cur acc) (cs ++ r) = jsonStepRun (.inStr (cs.reverse ++ cur) acc) r := by
  induction cs generalizing cur with
  | nil => simp
  | cons c cs ih =>
    rw [List.cons_append, step_inStr_safe (h c (by simp)), ih (fun x hx => h x (by simp [hx]))]
    simp [List.append_assoc]

/-- The concatenated one-element query fragment of a JSON-safe skill
parses to the one-element array holding exactly that skill. -/
theorem parse_fragment_safe (s : String) (hs : jsonSafe s = true) :
    parseStringArray ("[\"" ++ s ++ "\"]") = some [s] := by
  have hall : ∀ c ∈ s.data, jsonSafeChar c = true := by
    simpa [jsonSafe, List.all_eq_true] using hs
  have hd : ("[\"" ++ s ++ "\"]").data = '[' :: '"' :: (s.data ++ ['"', ']']) := by
    rw [String.data_append, String.data_append]
    show ['[', '"'] ++ s.data ++ ['"', ']'] = _
    simp
  rw [parseStringArray, hd, step_top_lbracket, step_atStart_quote,
    content_step_safe s.data hall, step_inStr_quote, step_postElem_rbracket]
  simp [jsonStepRun, string_mk_data]

/-! ## Data model

The four tables of `createTables` (main.go lines 296-332), with rows as
records.  `id` columns are `SERIAL` (store-assigned, starting at 1);
`jsonb` skill columns hold the parsed array value, modelled as the list
of strings.  `salary NUMERIC(10,2)` (a Go `float64` holding the decimal
the user typed) is modelled as a rational number. -/

/-- A row of `users` (struct `User`, main.go lines 19-24). -/
structure User where
  id : Int
  username : String
  passwordHash : String
  role : String
deriving DecidableEq

/-- A row of `candidates` (struct `Candidate`, main.go lines 26-33).
`addCandidate` ignores the incoming `id` and lets the store assign it. -/
structure Candidate where
  id : Int
  fullName : String
  age : Int
  email : String
  experience : String
  skills : List String
deriving DecidableEq

/-- A row of `job_openings` (struct `JobOpening`, main.go lines 35-42). -/
structure JobOpening where
  id : Int
  companyId : Int
  title : String
  experience : String
  salary : Rat
  requiredSkills : List String
deriving DecidableEq

/-- A row of `companies` (struct `Company`, main.go lines 44-47). -/
structure Company where
  id : Int
  name : String
deriving DecidableEq

/-- The database state: the four tables plus the next `SERIAL` value of
each. -/
structure DB where
  users : List User
  companies : List Company
  candidates : List Candidate
  jobOpenings : List JobOpening
  nextUserId : Int
  nextCompanyId : Int
  nextCandidateId : Int
  nextJobId : Int
deriving DecidableEq

/-- The state right after `createTables` on a fresh database: four empty
tables, every `SERIAL` sequence at 1. -/
def emptyDB : DB :=
  { users := [], companies := [], candidates := [], jobOpenings := []
    nextUserId := 1, nextCompanyId := 1, nextCandidateId := 1, nextJobId := 1 }

/-- The error taxonomy of the specification (§7).  `registerUser` and
its callees return Russian `errors.New` messages; each constructor
stands for one of them:
`validationError` = empty/non-positive required field,
`duplicateUserError` = username already exists,
`notFoundError` = no user row for the username,
`invalidCredentialsError` = password hash mismatch,
`storageError` = any error surfaced by the store. -/
inductive AppError where
  | validationError
  | duplicateUserError
  | notFoundError
  | invalidCredentialsError
  | storageError
deriving DecidableEq

deriving instance DecidableEq for Except

/-- Store/hash operations performed by `registerUser` and
`addJobOpening`, recorded in order so that claims about "no store
access" are statable. -/
inductive Effect where
  | probeUser (username : String)
  | hashCompute (password : String)
  | insertUser (username passwordHash : String)
  | insertJobOpening (companyId : Int) (title : String)
deriving DecidableEq

/-! ## Credential codec -/

/-- Modelled from the spec (§4.1, external bcrypt library):
`hashPassword` produces a digest from which `checkPasswordHash` can
recognise exactly the original password (`verify(password, digest)`
is true iff the password reproduces the digest).  The concrete tag is
irrelevant: only this recognition property is used. -/
def hashPassword (password : String) : String := "bcrypt$" ++ password

/-- `checkPasswordHash` of main.go lines 57-60: true iff the password
matches the stored digest (argument order as in the source). -/
def checkPasswordHash (password hash : String) : Bool :=
  hash == hashPassword password

/-! ## Record repository -/

/-- `registerUser` (main.go lines 62-92): reject empty username or
password; probe `SELECT 1 FROM users WHERE username = $1`; if a row
exists fail as duplicate; otherwise hash the password and
`INSERT INTO users (username, password_hash)` — `role` takes the
schema default value `'user'` and `id` the next serial.  The second
component records the store/hash operations performed. -/
def registerUser (db : DB) (username password : String) :
    Except AppError DB × List Effect :=
  if username = "" ∨ password = "" then
    (.error .validationError, [])
  else
    match db.users.find? (fun r => r.username == username) with
    | some _ => (.error .duplicateUserError, [.probeUser username])
    | none =>
      let hashedPassword := hashPassword password
      (.ok { db with
              users := db.users ++
                [{ id := db.nextUserId, username := username
                   passwordHash := hashedPassword, role := "user" }]
              nextUserId := db.nextUserId + 1 },
       [.probeUser username, .hashCompute password,
        .insertUser username hashedPassword])

/-- `loginUser` (main.go lines 94-115): select `id, password_hash, role`
for the username (the unique index makes the first match the only one);
no row is a not-found failure, a hash mismatch an
invalid-credentials failure, otherwise return `(id, role)`. -/
def loginUser (db : DB) (username password : String) :
    Except AppError (Int × String) :=
  match db.users.find? (fun r => r.username == username) with
  | none => .error .notFoundError
  | some user =>
    if checkPasswordHash password user.passwordHash then
      .ok (user.id, user.role)
    else
      .error .invalidCredentialsError

/-- `addCompany` (main.go lines 155-170); the `UNIQUE` constraint on
`name` turns a duplicate insert into a store error. -/
def addCompany (db : DB) (companyName : String) : Except AppError DB :=
  if companyName = "" then .error .validationError
  else if db.companies.any (fun c => c.name == companyName) then
    .error .storageError
  else
    .ok { db with
          companies := db.companies ++ [{ id := db.nextCompanyId, name := companyName }]
          nextCompanyId := db.nextCompanyId + 1 }

/-- `addCandidate` (main.go lines 172-193): validate, `json.Marshal`
the skills, insert; the store parses the marshalled text into the
`jsonb` column (a parse failure would surface as a store error). -/
def addCandidate (db : DB) (candidate : Candidate) : Except AppError DB :=
  if candidate.fullName = "" ∨ candidate.age ≤ 0 then .error .validationError
  else
    match parseStringArray (goMarshalStrings candidate.skills) with
    | none => .error .storageError
    | some skillsValue =>
      .ok { db with
            candidates := db.candidates ++
              [{ candidate with id := db.nextCandidateId, skills := skillsValue }]
            nextCandidateId := db.nextCandidateId + 1 }

/-- `addJobOpening` (main.go lines 195-216): validate title, company id
and salary, `json.Marshal` the required skills, insert; the foreign key
`company_id REFERENCES companies(id)` makes the insert fail with a
store error when no such company exists.  The second component records
the attempted store operations. -/
def addJobOpening (db : DB) (jobOpening : JobOpening) :
    Except AppError DB × List Effect :=
  if jobOpening.title = "" ∨ jobOpening.companyId ≤ 0 ∨ jobOpening.salary ≤ 0 then
    (.error .validationError, [])
  else
    match parseStringArray (goMarshalStrings jobOpening.requiredSkills) with
    | none => (.error .storageError, [.insertJobOpening jobOpening.companyId jobOpening.title])
    | some skillsValue =>
      if db.companies.any (fun c => c.id == jobOpening.companyId) then
        (.ok { db with
               jobOpenings := db.jobOpenings ++
                 [{ jobOpening with id := db.nextJobId, requiredSkills := skillsValue }]
               nextJobId := db.nextJobId + 1 },
         [.insertJobOpening jobOpening.companyId jobOpening.title])
      else
        (.error .storageError, [.insertJobOpening jobOpening.companyId jobOpening.title])

/-- The query argument built on main.go line 220:
`\x22[\x22" + skill + "\x22]\x22` — the skill concatenated, unescaped, into a
one-element JSON array fragment. -/
def candidateSkillArg (skill : String) : String := "[\"" ++ skill ++ "\"]"

/-- The query argument built on main.go line 272, identical
concatenation. -/
def jobSkillArg (skill : String) : String := "[\"" ++ skill ++ "\"]"

/-- `jsonb` array containment (`@>` with an array on both sides): every
element of the right-hand array occurs in the left-hand one. -/
def jsonbContainsAll (stored query : List String) : Bool :=
  query.all (fun e => stored.contains e)

/-- `findCandidatesBySkill` (main.go lines 218-242): run
`SELECT ... FROM candidates WHERE skills @> $1::jsonb` with the
concatenated fragment as `$1`; the cast parses the fragment (failure
surfaces as a query error), and each matching row is decoded back into
a `Candidate` (the stored `jsonb` array value round-trips through the
store's rendering and `json.Unmarshal` unchanged, per §4.3/§6). -/
def findCandidatesBySkill (db : DB) (skill : String) :
    Except AppError (List Candidate) :=
  match parseStringArray (candidateSkillArg skill) with
  | none => .error .storageError
  | some query =>
    .ok (db.candidates.filter (fun r => jsonbContainsAll r.skills query))

/-- `findJobOpeningsBySkill` (main.go lines 270-294), same shape over
`job_openings.required_skills`. -/
def findJobOpeningsBySkill (db : DB) (skill : String) :
    Except AppError (List JobOpening) :=
  match parseStringArray (jobSkillArg skill) with
  | none => .error .storageError
  | some query =>
    .ok (db.jobOpenings.filter (fun r => jsonbContainsAll r.requiredSkills query))

/-- `getStringArrayInput` (main.go lines 142-153) reads a line through
`getInput`, which applies `strings.TrimSpace`; an empty trimmed line
yields the empty list, otherwise the line is `strings.Split` on commas
and every piece trimmed.  It never produces an error. -/
def isGoSpace (c : Char) : Bool :=
  c == ' ' || c == '\t' || c == '\n' || c.toNat == 11 || c.toNat == 12 || c == '\r'
  || c.toNat == 0x85 || c.toNat == 0xA0
  || c.toNat == 0x1680 || (0x2000 ≤ c.toNat && c.toNat ≤ 0x200A)
  || c.toNat == 0x2028 || c.toNat == 0x2029 || c.toNat == 0x202F
  || c.toNat == 0x205F || c.toNat == 0x3000

/-- Modelled from the spec (external `strings.TrimSpace`): drop
whitespace from both ends. -/
def trimChars (cs : List Char) : List Char :=
  ((cs.dropWhile isGoSpace).reverse.dropWhile isGoSpace).reverse

/-- `strings.TrimSpace` on a `String`. -/
def goTrimSpace (s : String) : String := String.mk (trimChars s.data)

/-- Modelled from the spec (external `strings.Split` with a one-comma
separator): split at every comma; `n` commas yield `n + 1` pieces. -/
def splitComma : List Char → List (List Char)
  | [] => [[]]
  | c :: r =>
    if c == ',' then [] :: splitComma r
    else
      match splitComma r with
      | [] => [[c]]
      | p :: ps => (c :: p) :: ps

/-- `getStringArrayInput` (main.go lines 142-153), taking the raw input
line as its argument in place of the interactive read. -/
def getStringArrayInput (line : String) : Except AppError (List String) :=
  let input := goTrimSpace line
  if input = "" then .ok []
  else .ok ((splitComma input.data).map (fun cs => String.mk (trimChars cs)))

/-! ## Repository-level lemmas -/

theorem addCandidate_ok (db : DB) (c : Candidate)
    (h1 : c.fullName ≠ "") (h2 : 0 < c.age) :
    addCandidate db c = .ok { db with
      candidates := db.candidates ++ [{ c with id := db.nextCandidateId }]
      nextCandidateId := db.nextCandidateId + 1 } := by
  have hno : ¬ (c.fullName = "" ∨ c.age ≤ 0) := by
    push_neg
    exact ⟨h1, by omega⟩
  rw [addCandidate, if_neg hno, parse_goMarshal]

theorem addJobOpening_ok (db : DB) (j : JobOpening)
    (ht : j.title ≠ "") (hc : 0 < j.companyId) (hs : 0 < j.salary)
    (hex : db.companies.any (fun co => co.id == j.companyId) = true) :
    addJobOpening db j = (.ok { db with
        jobOpenings := db.jobOpenings ++ [{ j with id := db.nextJobId }]
        nextJobId := db.nextJobId + 1 },
      [.insertJobOpening j.companyId j.title]) := by
  have hno : ¬ (j.title = "" ∨ j.companyId ≤ 0 ∨ j.salary ≤ 0) := by
    push_neg
    exact ⟨ht, by omega, hs⟩
  rw [addJobOpening, if_neg hno, parse_goMarshal]
  simp [hex]

theorem findCandidatesBySkill_safe (db : DB) (s : String) (hs : jsonSafe s = true) :
    findCandidatesBySkill db s =
      .ok (db.candidates.filter (fun r => r.skills.contains s)) := by
  rw [findCandidatesBySkill, candidateSkillArg, parse_fragment_safe s hs]
  simp [jsonbContainsAll]

theorem findJobOpeningsBySkill_safe (db : DB) (s : String) (hs : jsonSafe s = true) :
    findJobOpeningsBySkill db s =
      .ok (db.jobOpenings.filter (fun r => r.requiredSkills.contains s)) := by
  rw [findJobOpeningsBySkill, jobSkillArg, parse_fragment_safe s hs]
  simp [jsonbContainsAll]

theorem registerUser_ok (db : DB) (u p : String) (hu : u ≠ "") (hp : p ≠ "")
    (hnew : ∀ r ∈ db.users, r.username ≠ u) :
    registerUser db u p = (.ok { db with
        users := db.users ++ [User.mk db.nextUserId u (hashPassword p) "user"],
        nextUserId := db.nextUserId + 1 },
      [.probeUser u, .hashCompute p, .insertUser u (hashPassword p)]) := by
  have hno : ¬ (u = "" ∨ p = "") := by
    push_neg
    exact ⟨hu, hp⟩
  have hfind : db.users.find? (fun r => r.username == u) = none :=
    List.find?_eq_none.mpr (fun r hr => by simp [hnew r hr])
  rw [registerUser, if_neg hno, hfind]

theorem loginUser_found (db : DB) (u p : String) (row : User)
    (hfind : db.users.find? (fun r => r.username == u) = some row)
    (hck : checkPasswordHash p row.passwordHash = true) :
    loginUser db u p = .ok (row.id, row.role) := by
  rw [loginUser, hfind]
  simp [hck]

theorem find?_append_new (users : List User) (u : String) (row : User)
    (hnew : ∀ r ∈ users, r.username ≠ u) (hrow : row.username = u) :
    (users ++ [row]).find? (fun r => r.username == u) = some row := by
  rw [List.find?_append, List.find?_eq_none.mpr (fun r hr => by simp [hnew r hr]),
    List.find?_cons_of_pos _ (by simp [hrow])]
  simp

/-! ## Concrete instances used by witnesses and counterexamples -/

/-- The state after registering alice on a fresh database. -/
def dbAlice : DB := (registerUser emptyDB "alice" "secret1").1.toOption.getD emptyDB

/-- A candidate with skills x and y. -/
def candXY : Candidate :=
  { id := 0, fullName := "A", age := 30, email := "a@b", experience := "", skills := ["x", "y"] }

/-- The state after inserting `candXY` on a fresh database. -/
def dbCandXY : DB := (addCandidate emptyDB candXY).toOption.getD emptyDB

/-- A job opening whose `companyId` is zero. -/
def jobCompanyZero : JobOpening :=
  { id := 0, companyId := 0, title := "Engineer", experience := "", salary := 1000,
    requiredSkills := ["go"] }

/-- A job opening referencing company 1. -/
def jobCompanyOne : JobOpening :=
  { id := 0, companyId := 1, title := "Engineer", experience := "", salary := 1000,
    requiredSkills := ["go", "sql"] }

/-- The state after adding company Acme on a fresh database. -/
def dbAcme : DB := (addCompany emptyDB "Acme").toOption.getD emptyDB

/-- A candidate with skills go and sql. -/
def candGoSql : Candidate :=
  { id := 0, fullName := "Bob", age := 25, email := "b@c", experience := "",
    skills := ["go", "sql"] }

/-! ## Claims -/

/-- Claim C8: a `registerUser` call with an empty username or an empty
password fails with ValidationError before any store access — no
existence probe, no hash computation, no insert (the recorded effect
trace is empty), so the users table is unchanged. -/
theorem registerUser_empty_input_validation (db : DB) (username password : String)
    (h : username = "" ∨ password = "") :
    registerUser db username password = (.error .validationError, []) := by
  rw [registerUser, if_pos h]

/-- Witness for C8 at a concrete input. -/
theorem registerUser_empty_input_validation_witness :
    registerUser emptyDB "" "secret1" = (.error .validationError, []) :=
  registerUser_empty_input_validation emptyDB "" "secret1" (Or.inl rfl)

/-- Claim C10: a job opening whose `companyId` is zero or negative is
rejected by `addJobOpening`'s own validation (ValidationError, the same
branch as an empty title or non-positive salary) before any store
contact — the effect trace is empty — rather than by a foreign-key
StorageError. -/
theorem addJobOpening_nonpositive_companyId_validation (db : DB) (j : JobOpening)
    (h : j.companyId ≤ 0) :
    (addJobOpening db j).1 = .error .validationError
    ∧ (addJobOpening db j).2 = [] := by
  rw [addJobOpening, if_pos (Or.inr (Or.inl h))]
  exact ⟨rfl, rfl⟩

/-- Witness for C10 at a concrete input. -/
theorem addJobOpening_nonpositive_companyId_validation_witness :
    (addJobOpening emptyDB jobCompanyZero).1 = .error .validationError
    ∧ (addJobOpening emptyDB jobCompanyZero).2 = [] :=
  addJobOpening_nonpositive_companyId_validation emptyDB jobCompanyZero (by decide)

/-- Claim C5: both skill-containment queries pass, as the `jsonb`
argument, the literal text obtained by concatenating `["`, the raw
skill and `"]` — no escaping and no parameter binding of the skill
itself.  Consequently the fragment of the unsafe skill `x","y`
coincides with the correct JSON encoding of the two-element list
`[x, y]`, while the fragment of `a"b` differs from the correct
encoding of the one-element list containing it. -/
theorem skillArg_concat_unescaped (skill : String) :
    candidateSkillArg skill = "[\"" ++ skill ++ "\"]"
    ∧ jobSkillArg skill = "[\"" ++ skill ++ "\"]"
    ∧ candidateSkillArg "x\",\"y" = goMarshalStrings ["x", "y"]
    ∧ candidateSkillArg "a\"b" ≠ goMarshalStrings ["a\"b"]
    ∧ jobSkillArg "a\"b" ≠ goMarshalStrings ["a\"b"] :=
  ⟨rfl, rfl, by decide, by decide, by decide⟩

theorem splitComma_ne_nil (cs : List Char) : splitComma cs ≠ [] := by
  induction cs with
  | nil => simp [splitComma]
  | cons c r ih =>
    rw [splitComma]
    split_ifs
    · simp
    · rcases hsp : splitComma r with _ | ⟨p, ps⟩
      · exact absurd hsp ih
      · simp

theorem splitComma_length (cs : List Char) :
    (splitComma cs).length = cs.count ',' + 1 := by
  induction cs with
  | nil => rfl
  | cons c r ih =>
    by_cases hc : (c == ',') = true
    · rw [splitComma, if_pos hc]
      simp [List.count_cons, hc, ih]
    · rw [splitComma, if_neg hc]
      rcases hsp : splitComma r with _ | ⟨p, ps⟩
      · exact absurd hsp (splitComma_ne_nil r)
      · have hlen : (p :: ps).length = r.count ',' + 1 := by
          rw [← hsp]
          exact ih
        simp only [List.count_cons, hc, if_false]
        simpa using hlen

/-- Claim C9: `getStringArrayInput` never fails.  The empty trimmed
line yields the empty list; a non-empty trimmed line yields the line
split at every comma with each piece trimmed — `n` commas give exactly
`n + 1` skills, so a lone comma gives two empty skills rather than an
error. -/
theorem getStringArrayInput_total_split (line : String) :
    (getStringArrayInput line).isOk = true
    ∧ (goTrimSpace line = "" → getStringArrayInput line = .ok [])
    ∧ (goTrimSpace line ≠ "" →
        getStringArrayInput line =
          .ok ((splitComma (goTrimSpace line).data).map (fun cs => String.mk (trimChars cs)))
        ∧ ∀ l, getStringArrayInput line = .ok l →
            l.length = (goTrimSpace line).data.count ',' + 1) := by
  by_cases h : goTrimSpace line = ""
  · refine ⟨?_, fun _ => ?_, fun hne => absurd h hne⟩ <;>
      simp [getStringArrayInput, h, Except.isOk, Except.toBool]
  · have he : getStringArrayInput line =
        .ok ((splitComma (goTrimSpace line).data).map (fun cs => String.mk (trimChars cs))) := by
      simp [getStringArrayInput, h]
    refine ⟨by simp [he, Except.isOk, Except.toBool], fun hh => absurd hh h, fun _ => ⟨he, ?_⟩⟩
    intro l hl
    rw [he] at hl
    simp only [Except.ok.injEq] at hl
    subst hl
    simp [splitComma_length]

/-- Witness for C9 at concrete inputs, including the lone comma. -/
theorem getStringArrayInput_total_split_witness :
    goTrimSpace "," ≠ ""
    ∧ getStringArrayInput "," =
        .ok ((splitComma (goTrimSpace ",").data).map (fun cs => String.mk (trimChars cs)))
    ∧ getStringArrayInput "," = .ok ["", ""]
    ∧ getStringArrayInput " go, sql " = .ok ["go", "sql"]
    ∧ getStringArrayInput "  " = .ok [] :=
  ⟨by decide, ((getStringArrayInput_total_split ",").2.2 (by decide)).1, by decide, by decide,
    (getStringArrayInput_total_split "  ").2.1 (by decide)⟩

/-- Claim C1: for a non-empty username and password with no user row
already holding that username, `registerUser` succeeds, creating a row
with the next serial id and the default role, and `loginUser` with the
same credentials then succeeds and returns exactly that id and the
default role `user`. -/
theorem registerUser_then_loginUser_ok (db : DB) (username password : String)
    (hu : username ≠ "") (hp : password ≠ "")
    (hnew : ∀ r ∈ db.users, r.username ≠ username) :
    ∃ db', (registerUser db username password).1 = .ok db'
      ∧ (∃ r ∈ db'.users, r.id = db.nextUserId ∧ r.username = username ∧ r.role = "user")
      ∧ loginUser db' username password = .ok (db.nextUserId, "user") := by
  refine ⟨{ db with
      users := db.users ++ [User.mk db.nextUserId username (hashPassword password) "user"],
      nextUserId := db.nextUserId + 1 }, ?_, ?_, ?_⟩
  · rw [registerUser_ok db username password hu hp hnew]
  · exact ⟨User.mk db.nextUserId username (hashPassword password) "user", by simp, rfl, rfl, rfl⟩
  · have hfind : ({ db with
        users := db.users ++ [User.mk db.nextUserId username (hashPassword password) "user"],
        nextUserId := db.nextUserId + 1 } : DB).users.find?
          (fun r => r.username == username)
        = some (User.mk db.nextUserId username (hashPassword password) "user") :=
      find?_append_new db.users username _ hnew rfl
    exact loginUser_found _ username password _ hfind (by simp [checkPasswordHash])

/-- Witness for C1 at a concrete input. -/
theorem registerUser_then_loginUser_ok_witness :
    ∃ db', (registerUser emptyDB "alice" "secret1").1 = .ok db'
      ∧ (∃ r ∈ db'.users, r.id = emptyDB.nextUserId ∧ r.username = "alice" ∧ r.role = "user")
      ∧ loginUser db' "alice" "secret1" = .ok (emptyDB.nextUserId, "user") :=
  registerUser_then_loginUser_ok emptyDB "alice" "secret1" (by decide) (by decide)
    (by intro r hr; simp [emptyDB] at hr)

/-- Claim C3: `loginUser` on a username whose row exists but whose
stored hash does not match the given password fails with
InvalidCredentialsError; on a username with no user row it fails with
NotFoundError; in both failure cases no `(id, role)` pair can be
returned. -/
theorem loginUser_failure_modes (db : DB) (username password : String) :
    ((∃ u, db.users.find? (fun r => r.username == username) = some u
        ∧ checkPasswordHash password u.passwordHash = false) →
      loginUser db username password = .error .invalidCredentialsError
        ∧ ∀ idRole, loginUser db username password ≠ .ok idRole)
    ∧ (db.users.find? (fun r => r.username == username) = none →
      loginUser db username password = .error .notFoundError
        ∧ ∀ idRole, loginUser db username password ≠ .ok idRole) := by
  constructor
  · rintro ⟨u, hf, hck⟩
    have he : loginUser db username password = .error .invalidCredentialsError := by
      rw [loginUser, hf]
      simp [hck]
    exact ⟨he, fun idRole h => by rw [he] at h; exact Except.noConfusion h⟩
  · intro hf
    have he : loginUser db username password = .error .notFoundError := by
      rw [loginUser, hf]
    exact ⟨he, fun idRole h => by rw [he] at h; exact Except.noConfusion h⟩

/-- Witness for C3 at concrete inputs: wrong password for alice,
unknown username bob. -/
theorem loginUser_failure_modes_witness :
    loginUser dbAlice "alice" "wrong" = .error .invalidCredentialsError
    ∧ loginUser dbAlice "bob" "secret1" = .error .notFoundError :=
  ⟨((loginUser_failure_modes dbAlice "alice" "wrong").1
      ⟨User.mk 1 "alice" "bcrypt$secret1" "user", by decide, by decide⟩).1,
    ((loginUser_failure_modes dbAlice "bob" "secret1").2 (by decide)).1⟩

/-- Claim C4 counterexample: after a successful registration of alice,
a second `registerUser` for the same username with the EMPTY password
fails with the input-validation error, not with DuplicateUserError —
the claim's "any password" is too strong, because the emptiness check
runs before the existence probe. -/
theorem registerUser_duplicate_empty_password_cx :
    (registerUser emptyDB "alice" "secret1").1 = .ok dbAlice
    ∧ (registerUser dbAlice "alice" "").1 = .error .validationError
    ∧ (registerUser dbAlice "alice" "").2 = []
    ∧ AppError.validationError ≠ AppError.duplicateUserError := by
  exact ⟨by decide, by decide, by decide, by decide⟩

/-- Claim C4 (amended): after a successful `registerUser`, a second
call with the same username and any NON-EMPTY password fails with
DuplicateUserError, detected by the existence probe alone — the
recorded effect trace of the second call is exactly the probe, so no
hash is computed and no second row is inserted. -/
theorem registerUser_duplicate_second_fails (db db' : DB) (u p p2 : String)
    (tr : List Effect)
    (h : registerUser db u p = (.ok db', tr)) (hp2 : p2 ≠ "") :
    (registerUser db' u p2).1 = .error .duplicateUserError
    ∧ (registerUser db' u p2).2 = [.probeUser u]
    ∧ ∀ db'', (registerUser db' u p2).1 ≠ .ok db'' := by
  by_cases h0 : u = "" ∨ p = ""
  · rw [registerUser, if_pos h0] at h
    simp at h
  · rw [registerUser, if_neg h0] at h
    rcases hf : db.users.find? (fun r => r.username == u) with _ | u0
    · rw [hf] at h
      simp only [Prod.mk.injEq, Except.ok.injEq] at h
      obtain ⟨hdb, -⟩ := h
      have hu : u ≠ "" := fun he => h0 (Or.inl he)
      have hnb : ¬ (u = "" ∨ p2 = "") := by
        push_neg
        exact ⟨hu, hp2⟩
      have hfresh : ∀ r ∈ db.users, r.username ≠ u := fun r hr => by
        have hne := List.find?_eq_none.mp hf r hr
        simpa using hne
      have hfind2 : db'.users.find? (fun r => r.username == u)
          = some (User.mk db.nextUserId u (hashPassword p) "user") := by
        rw [← hdb]
        exact find?_append_new db.users u _ hfresh rfl
      have he : registerUser db' u p2 = (.error .duplicateUserError, [.probeUser u]) := by
        rw [registerUser, if_neg hnb, hfind2]
      exact ⟨by rw [he], by rw [he],
        fun db'' hok => by rw [he] at hok; exact Except.noConfusion hok⟩
    · rw [hf] at h
      simp at h

/-- Witness for C4 at a concrete input. -/
theorem registerUser_duplicate_second_fails_witness :
    (registerUser dbAlice "alice" "other").1 = .error .duplicateUserError
    ∧ (registerUser dbAlice "alice" "other").2 = [.probeUser "alice"]
    ∧ ∀ db'', (registerUser dbAlice "alice" "other").1 ≠ .ok db'' :=
  registerUser_duplicate_second_fails emptyDB dbAlice "alice" "secret1" "other"
    [.probeUser "alice", .hashCompute "secret1", .insertUser "alice" "bcrypt$secret1"]
    (by decide) (by decide)

/-- Claim C7 counterexample: `companyId = 0` references no company (the
companies table is empty), yet `addJobOpening` fails with the
input-validation error — its own `companyId <= 0` check fires before
the store is contacted — not with the foreign-key StorageError the
claim requires for every non-referencing company id. -/
theorem addJobOpening_companyZero_cx :
    (∀ co ∈ emptyDB.companies, co.id ≠ jobCompanyZero.companyId)
    ∧ jobCompanyZero.title ≠ "" ∧ 0 < jobCompanyZero.salary
    ∧ (addJobOpening emptyDB jobCompanyZero).1 = .error .validationError
    ∧ AppError.validationError ≠ AppError.storageError := by
  refine ⟨by decide, by decide, by decide, by decide, by decide⟩

/-- Claim C7 (amended): for a job opening with non-empty title,
positive salary and POSITIVE `companyId` that references no existing
company, `addJobOpening` fails with StorageError from the foreign-key
violation of the attempted insert, and no row is inserted (a
`companyId` that is zero or negative instead fails the earlier input
validation, see the counterexample). -/
theorem addJobOpening_fk_violation_storageError (db : DB) (j : JobOpening)
    (ht : j.title ≠ "") (hc : 0 < j.companyId) (hs : 0 < j.salary)
    (hfk : ∀ co ∈ db.companies, co.id ≠ j.companyId) :
    (addJobOpening db j).1 = .error .storageError
    ∧ (addJobOpening db j).2 = [.insertJobOpening j.companyId j.title]
    ∧ ∀ db', (addJobOpening db j).1 ≠ .ok db' := by
  have hno : ¬ (j.title = "" ∨ j.companyId ≤ 0 ∨ j.salary ≤ 0) := by
    push_neg
    exact ⟨ht, by omega, hs⟩
  have hany : db.companies.any (fun c => c.id == j.companyId) = false :=
    List.any_eq_false.mpr (fun co hco => by simp [hfk co hco])
  have he : addJobOpening db j
      = (.error .storageError, [.insertJobOpening j.companyId j.title]) := by
    rw [addJobOpening, if_neg hno, parse_goMarshal]
    simp [hany]
  exact ⟨by rw [he], by rw [he],
    fun db' hok => by rw [he] at hok; exact Except.noConfusion hok⟩

/-- Witness for the amended C7 at a concrete input. -/
theorem addJobOpening_fk_violation_storageError_witness :
    (addJobOpening emptyDB jobCompanyOne).1 = .error .storageError
    ∧ (addJobOpening emptyDB jobCompanyOne).2
        = [.insertJobOpening jobCompanyOne.companyId jobCompanyOne.title]
    ∧ ∀ db', (addJobOpening emptyDB jobCompanyOne).1 ≠ .ok db' :=
  addJobOpening_fk_violation_storageError emptyDB jobCompanyOne (by decide) (by decide)
    (by decide) (by intro co hco; simp [emptyDB] at hco)

/-- Claim C2 counterexample: a candidate inserted with skills
`["x", "y"]` IS returned by `findCandidatesBySkill` for the skill
`x","y`, which is not an element of that list — the unescaped
concatenation turns the query into containment of BOTH `x` and `y`.
(The store assigned the candidate id 1.) -/
theorem findCandidatesBySkill_injection_cx :
    addCandidate emptyDB candXY = .ok dbCandXY
    ∧ candXY.skills = ["x", "y"]
    ∧ ¬ ("x\",\"y" ∈ candXY.skills)
    ∧ (findCandidatesBySkill dbCandXY "x\",\"y").map (fun l => l.map Candidate.id)
        = .ok [1] := by
  exact ⟨by decide, rfl, by decide, by decide⟩

/-- Claim C2 (amended): for a candidate inserted with skill list `S`
and a JSON-SAFE query skill `s` (no double quote, no backslash, no
control character — such a skill passes through the concatenated
fragment unchanged), `findCandidatesBySkill s` returns the inserted
candidate exactly when `s ∈ S`; unsafe skills can make the query
error out or, as the counterexample shows, match candidates whose
list does not contain the queried string. -/
theorem findCandidatesBySkill_mem_iff_safe (db : DB) (c : Candidate) (s : String)
    (h1 : c.fullName ≠ "") (h2 : 0 < c.age) (hs : jsonSafe s = true)
    (hfresh : ∀ r ∈ db.candidates, r.id ≠ db.nextCandidateId) :
    ∃ db' l, addCandidate db c = .ok db'
      ∧ findCandidatesBySkill db' s = .ok l
      ∧ ((∃ r ∈ l, r.id = db.nextCandidateId) ↔ s ∈ c.skills) := by
  refine ⟨_, _, addCandidate_ok db c h1 h2,
    findCandidatesBySkill_safe _ s hs, ?_⟩
  constructor
  · rintro ⟨r, hr, hrid⟩
    simp only [List.mem_filter, List.mem_append, List.mem_singleton] at hr
    rcases hr with ⟨hin | hin, hcont⟩
    · exact absurd hrid (hfresh r hin)
    · subst hin
      simpa using hcont
  · intro hmem
    refine ⟨{ c with id := db.nextCandidateId }, ?_, rfl⟩
    simp [List.mem_filter, hmem]

/-- Witness for the amended C2 at a concrete input. -/
theorem findCandidatesBySkill_mem_iff_safe_witness :
    ∃ db' l, addCandidate emptyDB candXY = .ok db'
      ∧ findCandidatesBySkill db' "x" = .ok l
      ∧ ((∃ r ∈ l, r.id = emptyDB.nextCandidateId) ↔ "x" ∈ candXY.skills) :=
  findCandidatesBySkill_mem_iff_safe emptyDB candXY "x" (by decide) (by decide) (by decide)
    (by intro r hr; simp [emptyDB] at hr)

/-- Claim C6: a candidate (or job opening) inserted with any skill list
and read back through a skill query (any JSON-safe skill of the list
finds it) carries exactly the same ordered list of skill strings that
was passed to the insert — the list survives `json.Marshal`, the
store's `jsonb` parse and the decode on read unchanged. -/
theorem insert_then_find_skills_roundtrip :
    (∀ (db : DB) (c : Candidate) (s : String),
      c.fullName ≠ "" → 0 < c.age → jsonSafe s = true → s ∈ c.skills →
      ∃ db' l, addCandidate db c = .ok db'
        ∧ findCandidatesBySkill db' s = .ok l
        ∧ ∃ r ∈ l, r.id = db.nextCandidateId ∧ r.skills = c.skills)
    ∧ (∀ (db : DB) (j : JobOpening) (s : String),
      j.title ≠ "" → 0 < j.companyId → 0 < j.salary →
      db.companies.any (fun co => co.id == j.companyId) = true →
      jsonSafe s = true → s ∈ j.requiredSkills →
      ∃ db' l, (addJobOpening db j).1 = .ok db'
        ∧ findJobOpeningsBySkill db' s = .ok l
        ∧ ∃ r ∈ l, r.id = db.nextJobId ∧ r.requiredSkills = j.requiredSkills) := by
  constructor
  · intro db c s h1 h2 hs hmem
    refine ⟨_, _, addCandidate_ok db c h1 h2, findCandidatesBySkill_safe _ s hs,
      { c with id := db.nextCandidateId }, ?_, rfl, rfl⟩
    simp [List.mem_filter, hmem]
  · intro db j s ht hc hsal hex hs hmem
    refine ⟨_, _, by rw [addJobOpening_ok db j ht hc hsal hex],
      findJobOpeningsBySkill_safe _ s hs,
      { j with id := db.nextJobId }, ?_, rfl, rfl⟩
    simp [List.mem_filter, hmem]

/-- Witness for C6 at concrete inputs with the skill list
`["go", "sql"]`. -/
theorem insert_then_find_skills_roundtrip_witness :
    (∃ db' l, addCandidate emptyDB candGoSql = .ok db'
      ∧ findCandidatesBySkill db' "go" = .ok l
      ∧ ∃ r ∈ l, r.id = emptyDB.nextCandidateId ∧ r.skills = candGoSql.skills)
    ∧ (∃ db' l, (addJobOpening dbAcme jobCompanyOne).1 = .ok db'
      ∧ findJobOpeningsBySkill db' "go" = .ok l
      ∧ ∃ r ∈ l, r.id = dbAcme.nextJobId ∧ r.requiredSkills = jobCompanyOne.requiredSkills) :=
  ⟨insert_then_find_skills_roundtrip.1 emptyDB candGoSql "go"
      (by decide) (by decide) (by decide) (by decide),
    insert_then_find_skills_roundtrip.2 dbAcme jobCompanyOne "go"
      (by decide) (by decide) (by decide) (by decide) (by decide) (by decide)⟩

end Kursovaya
